import Mathlib

/-!
Verification of the lufah state-synchronization and peer-resolution core.

The Python source (src/lufah/updatable.py, src/lufah/fahclient.py,
src/lufah/util.py) is shallowly embedded here:

* JSON values are the inductive `J` (Python `None`/`bool`/`int`/`str`/
  `list`/`dict`).  Python dict keys reachable in this code are strings,
  ints (lists/`do_update` can insert int keys), or `None`; they are the
  inductive `JKey`.  A Python `bool` used as a key or index behaves as the
  int 0/1 (`True == 1`), which `pathKey`/`intLike` reproduce.
* In-place mutation is modelled by returning the new value; a raised
  Python exception is modelled by the `Option PyErr` component, with the
  partially mutated value still returned (Python's in-place mutations
  performed before the raise persist, and the callers catch).
* JSON numbers are modelled as `Int`; none of the verified code paths
  distinguish ints from floats.
-/

namespace Lufah

/-- Keys of a Python dict as they occur in this code: JSON object keys are
strings; `do_update` can insert int keys; `None` is hashable too. -/
inductive JKey where
  | s (str : String)
  | i (int : Int)
  | nil
deriving DecidableEq, Repr

/-- A JSON value / Python object tree. -/
inductive J where
  | null
  | bool (b : Bool)
  | num (n : Int)
  | str (s : String)
  | arr (elems : List J)
  | obj (entries : List (JKey × J))
deriving Repr

/-- Python exceptions raised by the embedded code. -/
inductive PyErr where
  | typeErr
  | keyErr
  | indexErr
  | valueErr
deriving DecidableEq, Repr

/-- Using a Python value as a dict key: strings and ints hash to
themselves, `True`/`False` equal `1`/`0`, `None` is hashable, and
lists/dicts are unhashable (`none`, a `TypeError` at use site). -/
def pathKey : J → Option JKey
  | .str s => some (.s s)
  | .num n => some (.i n)
  | .bool b => some (.i (if b then 1 else 0))
  | .null => some .nil
  | _ => none

/-- Python `isinstance(x, int)`: true for ints and bools. -/
def nextKeyIsInt : J → Bool
  | .num _ => true
  | .bool _ => true
  | _ => false

/-- The int value of a Python object usable as a list index
(`True` indexes as `1`). -/
def intLike : J → Option Int
  | .num n => some n
  | .bool b => some (if b then 1 else 0)
  | _ => none

/-- Python `x == m` for an int literal `m` (`True == 1`, `"a" == -1` is
`False` without error). -/
def pyEqInt (x : J) (m : Int) : Bool :=
  match intLike x with
  | some n => n = m
  | none => false

/-- Effective list index for Python indexing: negatives count from the
end, out of range is `none` (an `IndexError` at use site). -/
def pyIdx (len : Nat) (n : Int) : Option Nat :=
  if 0 ≤ n then
    if n < (len : Int) then some n.toNat else none
  else
    if 0 ≤ (len : Int) + n then some ((len : Int) + n).toNat else none

/-- First-match association lookup (Python dict lookup; keys are unique
in dicts built by this code). -/
def lookupK : List (JKey × J) → JKey → Option J
  | [], _ => none
  | (k, v) :: t, kk => if k = kk then some v else lookupK t kk

/-- Python `key in obj` for a dict. -/
def containsK (m : List (JKey × J)) (kk : JKey) : Bool :=
  (lookupK m kk).isSome

/-- Python `d[k] = v`: overwrite in place keeping the key's position, or
append a new entry (dict insertion order). -/
def setK : List (JKey × J) → JKey → J → List (JKey × J)
  | [], kk, v => [(kk, v)]
  | (k, w) :: t, kk, v =>
      if k = kk then (k, v) :: t else (k, w) :: setK t kk v

/-- Python `del d[k]`: remove the (unique) entry with that key. -/
def eraseK : List (JKey × J) → JKey → List (JKey × J)
  | [], _ => []
  | (k, w) :: t, kk => if k = kk then t else (k, w) :: eraseK t kk

/-- A dict key turned back into a value (iterating a dict yields keys). -/
def jOfKey : JKey → J
  | .s s => .str s
  | .i n => .num n
  | .nil => .null

/-- Python `xs.extend(value)`: lists extend element-wise, strings by
characters, dicts by keys; other values are not iterable (`TypeError`,
with no mutation performed). -/
def pyExtend (xs : List J) (v : J) : List J × Option PyErr :=
  match v with
  | .arr vs => (xs ++ vs, none)
  | .str s => (xs ++ s.toList.map (fun c => .str (String.singleton c)), none)
  | .obj m => (xs ++ m.map (fun e => jOfKey e.1), none)
  | _ => (xs, some .typeErr)

/-- The final dispatch of `Updatable.do_update` (updatable.py lines
142-164, `compat_mode=False`): `obj` is the container navigated to, `k`
the second-to-last element of the update list, `v` the last.  Mirrors
the `if`/`elif` chain, including that `key >= len(obj)` raises
`TypeError` for a non-int key, that `pop`/item assignment accept
negative in-range indices, and that `del` on a missing dict key raises
`KeyError`. -/
def finalStep (o k v : J) : J × Option PyErr :=
  match o with
  | .arr xs =>
    if pyEqInt k (-1) then (.arr (xs ++ [v]), none)
    else if pyEqInt k (-2) then
      let r := pyExtend xs v
      (.arr r.1, r.2)
    else
      match intLike k with
      | none => (.arr xs, some .typeErr)
      | some n =>
        if (xs.length : Int) ≤ n then (.arr (xs ++ [v]), none)
        else
          match pyIdx xs.length n with
          | none => (.arr xs, some .indexErr)
          | some j =>
            match v with
            | .null => (.arr (xs.eraseIdx j), none)
            | _ => (.arr (xs.set j v), none)
  | .obj m =>
    match v with
    | .null =>
      match pathKey k with
      | none => (.obj m, some .typeErr)
      | some kk =>
        if containsK m kk then (.obj (eraseK m kk), none)
        else (.obj m, some .keyErr)
    | _ =>
      match pathKey k with
      | none => (.obj m, some .typeErr)
      | some kk => (.obj (setK m kk v), none)
  | other =>
    -- `del other[key]` / `other[key] = value` on a non-container
    (other, some .typeErr)

/-- The body of `Updatable.do_update` on the element list of an update
(updatable.py lines 110-164, `compat_mode=False`).  The `while` loop
over all elements but the last two becomes recursion; each level
returns the (possibly partially) mutated subtree together with the
first raised exception, because Python's in-place mutations performed
before a raise persist.  Lists of fewer than two elements raise
`IndexError` (`update[i]` past the end). -/
def goUpdate (o : J) (u : List J) : J × Option PyErr :=
  match u with
  | [] => (o, some .indexErr)
  | [_] => (o, some .indexErr)
  | [k, v] => finalStep o k v
  | k :: nk :: rest2 =>
    let rest := nk :: rest2
    let nextInt := nextKeyIsInt nk
    match o with
    | .obj m =>
      match pathKey k with
      | none => (.obj m, some .typeErr)
      | some kk =>
        match lookupK m kk with
        | some child =>
          let r := goUpdate child rest
          (.obj (setK m kk r.1), r.2)
        | none =>
          -- missing key: create an empty list or dict per the next key
          let child0 : J := if nextInt then .arr [] else .obj []
          let r := goUpdate child0 rest
          (.obj (m ++ [(kk, r.1)]), r.2)
    | .arr xs =>
      if pyEqInt k (-1) || pyEqInt k (xs.length : Int) then
        -- missing position: append an empty list or dict and descend
        let child0 : J := if nextInt then .arr [] else .obj []
        let r := goUpdate child0 rest
        (.arr (xs ++ [r.1]), r.2)
      else
        match intLike k with
        | none => (.arr xs, some .typeErr)
        | some n =>
          match pyIdx xs.length n with
          | none => (.arr xs, some .indexErr)
          | some j =>
            let r := goUpdate (xs.getD j .null) rest
            (.arr (xs.set j r.1), r.2)
    | .str s =>
      -- strings are subscriptable but immutable: descend without writeback
      match intLike k with
      | none => (.str s, some .typeErr)
      | some n =>
        match pyIdx s.length n with
        | none => (.str s, some .indexErr)
        | some j =>
          let r := goUpdate (.str (String.singleton (s.toList.getD j ' '))) rest
          (.str s, r.2)
    | other => (other, some .typeErr)

/-- `Updatable.do_update(update)` on the whole argument: non-list
updates (heartbeat strings, dict frames) return without touching the
document (updatable.py lines 110-111). -/
def do_update (root : J) (update : J) : J × Option PyErr :=
  match update with
  | .arr u => goUpdate root u
  | _ => (root, none)

/-- One observer registration: `id` identifies the callback object,
`raises` whether invoking it raises (the loop in `_process_message`
catches and logs this individually). -/
structure Callback where
  id : Nat
  raises : Bool
deriving DecidableEq, Repr

/-- The observer loop of `FahClient._process_message` (fahclient.py
lines 110-119): each callback is awaited with `(self, data)` inside its
own `try`, so a raising callback is logged and the loop continues.
Returns the invocations performed, in order. -/
def runCallbacks (cbs : List Callback) (d : J) : List (Nat × J) :=
  match cbs with
  | [] => []
  | c :: t => (c.id, d) :: runCallbacks t d

/-- Python `isinstance(data, (list, str))`. -/
def isListOrStr : J → Bool
  | .arr _ => true
  | .str _ => true
  | _ => false

/-- `FahClient._process_message` (fahclient.py lines 94-119): `decoded`
is `none` when `json.loads` raises (the function logs and returns
before reaching the observers), otherwise the decoded frame.  A
`do_update` exception is caught (the possibly partially mutated
document is kept) and the observers still run.  Returns the new
document and the observer invocations performed. -/
def process_message (decoded : Option J) (should_process : Bool) (doc : J)
    (cbs : List Callback) : J × List (Nat × J) :=
  match decoded with
  | none => (doc, [])
  | some d =>
    let doc' := if should_process && isListOrStr d then (do_update doc d).1 else doc
    (doc', runCallbacks cbs d)

/-- One receive-loop step on an already decoded frame, with updates
enabled: apply `do_update`, swallowing its exception
(fahclient.py lines 105-109). -/
def processStep (doc : J) (msg : J) : J :=
  if isListOrStr msg then (do_update doc msg).1 else doc

/-- Replaying a decoded frame sequence through the receive loop. -/
def replay (doc : J) (msgs : List J) : J :=
  msgs.foldl processStep doc

/-- A run of the receive loop as a step relation: `ReplayRel d ms r`
holds when processing the frames `ms` in order from document `d` can
end with document `r`. -/
inductive ReplayRel : J → List J → J → Prop where
  | nil (d : J) : ReplayRel d [] d
  | cons {d d' r m ms} : processStep d m = d' → ReplayRel d' ms r →
      ReplayRel d (m :: ms) r

/-- Python `str.strip()`: drop leading and trailing whitespace. -/
def pyStrip (s : String) : String :=
  (((s.toList.dropWhile Char.isWhitespace).reverse.dropWhile
    Char.isWhitespace).reverse).asString

/-- ASCII lowering, as `str.lower` acts on the hostnames at hand. -/
def charLower (c : Char) : Char :=
  if 'A' ≤ c ∧ c ≤ 'Z' then Char.ofNat (c.toNat + 32) else c

/-- The numeric value of a digit string. -/
def digitsToNat (cs : List Char) : Nat :=
  cs.foldl (fun n c => n * 10 + (c.toNat - 48)) 0

/-- Whether a string begins with `/` (Python `s.startswith("/")`). -/
def headIsSlash (s : String) : Bool :=
  match s.toList with
  | '/' :: _ => true
  | _ => false

/-- Python `s.split(sep)` for a one-character separator: `""` splits to
`[""]`, adjacent separators produce empty pieces. -/
def splitOnChar : List Char → Char → List (List Char)
  | [], _ => [[]]
  | c :: t, sep =>
    let r := splitOnChar t sep
    if c = sep then [] :: r
    else
      match r with
      | h :: t2 => (c :: h) :: t2
      | [] => [[c]]

/-- `Updatable.clean_key` (updatable.py lines 54-67) on a dict key:
strings of at most 16 characters get `-` replaced by `_`. -/
def cleanKeyK : JKey → JKey
  | .s s =>
    if s.length ≤ 16 then
      .s (s.toList.map (fun c => if c = '-' then '_' else c)).asString
    else .s s
  | k => k

/-- `Updatable.clean_keys` (updatable.py lines 69-87): recursively clean
dict keys; the dict comprehension keeps the first position of a key and
lets a later duplicate overwrite the value, which `setK`-folding
reproduces. -/
def cleanKeys : J → J
  | .arr xs => .arr (xs.attach.map (fun x => cleanKeys x.1))
  | .obj m => .obj ((m.attach.map (fun e => (cleanKeyK e.1.1, cleanKeys e.1.2))).foldl
      (fun acc e => setK acc e.1 e.2) [])
  | x => x
decreasing_by
  · have h := List.sizeOf_lt_of_mem x.2
    simp only [J.arr.sizeOf_spec]
    omega
  · have h := List.sizeOf_lt_of_mem e.2
    have h2 : sizeOf e.1.2 < sizeOf e.1 := by
      obtain ⟨⟨k, v⟩, _⟩ := e
      simp
    simp only [J.obj.sizeOf_spec]
    omega

/-- Python `int(s)` restricted to the unsigned decimal strings produced
by version numbers; `none` models a raised `ValueError`. -/
def parseIntPy (s : String) : Option Int :=
  if s.length ≠ 0 ∧ s.toList.all Char.isDigit then
    some (digitsToNat s.toList)
  else none

/-- `tuple(map(int, v.split(".")))` over
`snapshot.get("info", {}).get("version", "0")` (fahclient.py lines
176-177).  `none` models any exception raised there (`.get` on a
non-dict, a non-string version, a non-numeric component); such an
exception propagates out of `connect` uncaught. -/
def parseVersion (snapshot : J) : Option (List Int) :=
  match snapshot with
  | .obj m =>
    let info := (lookupK m (.s "info")).getD (.obj [])
    match info with
    | .obj im =>
      let v := (lookupK im (.s "version")).getD (.str "0")
      match v with
      | .str vs => ((splitOnChar vs.toList '.').map List.asString).mapM parseIntPy
      | _ => none
    | _ => none
  | _ => none

/-- Python tuple `<` comparison (lexicographic, shorter tuple first on a
tie) used for `self._version < (8, 3)`. -/
def pyTupLt : List Int → List Int → Bool
  | [], [] => false
  | [], _ :: _ => true
  | _ :: _, [] => false
  | a :: as', b :: bs' => a < b || (a = b && pyTupLt as' bs')

/-- Values of `FahClient._connection_state` reachable in `connect`
(fahclient.py lines 136-184); `excTypeOf` stands for the recorded
`type(e)` of an unclassified exception. -/
inductive CLabel where
  | initial
  | connectingResolve
  | connectingOpen
  | connected
  | disconnected
  | unreachable
  | invalidAddress
  | excTypeOf
deriving DecidableEq, Repr

/-- Outcome of `websockets.asyncio.client.connect(uri, ...)` at
fahclient.py line 149: opened, cancellation (`KeyboardInterrupt` /
`CancelledError`), or an exception of one of the classified kinds. -/
inductive OpenR where
  | ok
  | cancelled
  | osErr
  | invalidUri
  | otherExc
deriving DecidableEq, Repr

/-- Outcome of the single handshake read `await self.ws.recv()` plus
`json.loads(r)` at fahclient.py lines 174-175: a decoded snapshot,
cancellation, or any other exception. -/
inductive ReadR where
  | ok (snapshot : J)
  | cancelled
  | exc
deriving Repr

/-- How a `connect()` call ends: a normal return, a re-raised
cancellation, or a propagated (uncaught) exception. -/
inductive ConnRes where
  | returned
  | raisedCancel
  | raisedExc
deriving DecidableEq, Repr

/-- The fields of `FahClient` that `connect` reads or writes: whether
`self.ws` is set, whether the transport is open, whether `self._uri` is
`None`, the mirrored document, the parsed version tuple, and the
connection-state label. -/
structure FCState where
  hasWs : Bool
  wsOpen : Bool
  uriNone : Bool
  data : J
  version : List Int
  connState : CLabel
deriving Repr

/-- Python truthiness of the decoded snapshot (`if not data` in
`Updatable.__init__`). -/
def jFalsy : J → Bool
  | .null => true
  | .bool b => !b
  | .num n => n = 0
  | .str s => s.isEmpty
  | .arr xs => xs.isEmpty
  | .obj m => m.isEmpty

/-- The handshake tail of `connect` (fahclient.py lines 174-184): the
read and everything after it run outside any `try`, so any exception
there propagates and no field is reset. -/
def handshake (st : FCState) (readR : ReadR) : FCState × ConnRes :=
  match readR with
  | .cancelled => (st, .raisedCancel)
  | .exc => (st, .raisedExc)
  | .ok snap =>
    match parseVersion snap with
    | none => (st, .raisedExc)
    | some ver =>
      let old := pyTupLt ver [8, 3]
      let seeded :=
        if jFalsy snap then J.obj []
        else if old then cleanKeys snap else snap
      ({ st with version := ver, data := seeded }, .returned)

/-- `FahClient.connect` (fahclient.py lines 136-184).  The outcomes of
the two awaited operations (transport open, handshake read) are inputs.
Opening failures are caught: the document and version are reset, a
state label is recorded, and the call returns (cancellation is
re-raised after the same reset).  The handshake read is not guarded. -/
def connect (s : FCState) (openR : OpenR) (readR : ReadR) : FCState × ConnRes :=
  if s.hasWs ∧ s.wsOpen then (s, .returned)
  else if s.uriNone then (s, .returned)
  else if !s.hasWs then
    match openR with
    | .ok =>
      handshake { s with hasWs := true, wsOpen := true, connState := .connected } readR
    | .cancelled =>
      ({ s with data := .obj [], version := [0, 0, 0], connState := .disconnected },
        .raisedCancel)
    | .osErr =>
      ({ s with data := .obj [], version := [0, 0, 0], connState := .unreachable },
        .returned)
    | .invalidUri =>
      ({ s with data := .obj [], version := [0, 0, 0], connState := .invalidAddress },
        .returned)
    | .otherExc =>
      ({ s with data := .obj [], version := [0, 0, 0], connState := .excTypeOf },
        .returned)
  else
    handshake s readR

/-- Errors raised by `munged_group_name` (util.py lines 185-216):
missing snapshot, ambiguous group, nonexistent group, or an attribute
error from an ill-shaped snapshot. -/
inductive GroupErr where
  | noData
  | ambiguous
  | doesNotExist
  | attrErr
deriving DecidableEq, Repr

/-- The group listing a snapshot yields (util.py lines 198-202):
the keys of `snapshot["groups"]`, else (for 8.1) the `/`-prefixed
entries of `snapshot["peers"]`.  `.error` models the `AttributeError`
Python raises when `groups` is not a dict or a peer is not a string. -/
def groupsOfSnapshot (m : List (JKey × J)) : Except GroupErr (List JKey) :=
  let fromGroups : Except GroupErr (List JKey) :=
    match lookupK m (.s "groups") with
    | some (.obj gm) => .ok (gm.map (·.1))
    | some _ => .error .attrErr
    | none => .ok []
  match fromGroups with
  | .error e => .error e
  | .ok gs =>
    if gs.isEmpty then
      match lookupK m (.s "peers") with
      | some (.arr ps) =>
        if ps.all (fun p => match p with | .str _ => true | _ => false) then
          .ok (ps.filterMap (fun p => match p with
            | .str s => if headIsSlash s then some (JKey.s s) else none
            | _ => none))
        else .error .attrErr
      | some _ => .error .attrErr
      | none => .ok []
    else .ok gs

/-- `munged_group_name(group, snapshot)` (util.py lines 185-216):
`None` passes through; with a snapshot, a nonempty name is checked
against both itself and its `/`-prefixed variant — both present is
ambiguous, only the prefixed one present silently selects it — and the
resolved name must exist in the listing.  The empty name (the default
group) skips the variant check entirely. -/
def munged_group_name (group : Option String) (snapshot : Option J) :
    Except GroupErr (Option String) :=
  match group with
  | none => .ok none
  | some g =>
    match snapshot with
    | none => .error .noData
    | some (.obj m) =>
      match groupsOfSnapshot m with
      | .error e => .error e
      | .ok groups =>
        let g' :=
          if g.length ≠ 0 then
            let g0 := "/" ++ g
            if JKey.s g0 ∈ groups ∧ JKey.s g ∈ groups then none
            else if JKey.s g0 ∈ groups ∧ JKey.s g ∉ groups then some g0
            else some g
          else some g
        match g' with
        | none => .error .ambiguous
        | some gn =>
          if JKey.s gn ∈ groups then .ok (some gn) else .error .doesNotExist
    | some _ => .error .attrErr

/-- Python `peer.find("/")` as a character index. -/
def pyFindSlash (p : String) : Option Nat :=
  p.toList.findIdx? (· = '/')

/-- `split_address_and_group(peer)` (util.py lines 36-48): the part
from the first `/` on (prefix included) is the group; the remainder,
whitespace-stripped, is the address. -/
def split_address_and_group (peer : Option String) :
    Option String × Option String :=
  match peer with
  | none => (none, none)
  | some p =>
    match pyFindSlash p with
    | none => (some (pyStrip p), none)
    | some i =>
      if i = 0 then (some "", some p)
      else (some (pyStrip (p.toList.take i).asString),
        some ((p.toList.drop i).asString))

/-- The hostname/port extraction `urlparse("ws://" + peer)` performs on
a `host[:port]` address: split at the last `:`, lowercase the host,
read the port as a decimal number; an empty host is `None`. -/
def parseHostPort (a : String) : Option String × Option Nat :=
  let cs := a.toList
  let host_port :=
    match cs.reverse.findIdx? (· = ':') with
    | none => (cs, (none : Option Nat))
    | some ri =>
      let i := cs.length - 1 - ri
      let after := cs.drop (i + 1)
      if after.length ≠ 0 ∧ after.all Char.isDigit then
        (cs.take i, some (digitsToNat after))
      else (cs, none)
  let h := (host_port.1.map charLower).asString
  (if h.isEmpty then none else some h, host_port.2)

/-- One character of the legacy group character class
`[\w.-]` (ASCII reading of `\w`). -/
def isLegacyChar (c : Char) : Bool :=
  c.isAlphanum || c = '_' || c = '.' || c = '-'

/-- `re.match(r"^\/?[\w.-]*$", group)` (util.py line 139). -/
def matchLegacy (g : String) : Bool :=
  let t := if headIsSlash g then g.toList.drop 1 else g.toList
  t.all isLegacyChar

/-- `uri_and_group_for_peer(peer)` (util.py lines 110-145): split off
the group, normalize the host to `localhost` for local spellings,
default the port to 7396, build the websocket endpoint, strip one
leading `/` from a nonempty group, and append a legacy path suffix for
old-style group names. -/
def uri_and_group_for_peer (peer : Option String) :
    Option String × Option String :=
  if peer = none ∨ peer = some "" then (none, none)
  else
    let ag := split_address_and_group peer
    let a := ag.1.getD ""
    let hp := parseHostPort a
    let host1 := pyStrip (hp.1.getD "localhost")
    let host :=
      if host1 = "" ∨ host1 = "." ∨ host1 = "localhost" ∨
          host1 = "localhost." ∨ host1 = "127.0.0.1" then "localhost"
      else host1
    let port := hp.2.getD 7396
    let uri := "ws://" ++ host ++ ":" ++ toString port ++ "/api/websocket"
    let group :=
      match ag.2 with
      | some g =>
        if !g.toList.isEmpty && headIsSlash g then some (g.toList.drop 1).asString
        else some g
      | none => none
    let uri :=
      match group with
      | some g =>
        if !g.toList.isEmpty && matchLegacy g then
          uri ++ (if !headIsSlash g then "/" else "") ++ g
        else uri
      | none => uri
    (some uri, group)

/-- `FahClient.register_callback` (fahclient.py lines 88-89): a plain
append, with no duplicate check. -/
def register_callback (cbs : List Callback) (cb : Callback) : List Callback :=
  cbs ++ [cb]

/-- Python `list.remove(x)`: drop the first element equal to `x`, or
raise `ValueError` when none is. -/
def pyRemove {α : Type} [DecidableEq α] : List α → α → Except PyErr (List α)
  | [], _ => .error .valueErr
  | x :: xs, y => if x = y then .ok xs else (pyRemove xs y).map (x :: ·)

/-- `FahClient.unregister_callback` (fahclient.py lines 91-92):
`self._callbacks.remove(callback)`. -/
def unregister_callback (cbs : List Callback) (cb : Callback) :
    Except PyErr (List Callback) :=
  pyRemove cbs cb

/-- Reading one map key of a document (observation helper). -/
def atKey (d : J) (k : JKey) : Option J :=
  match d with
  | .obj m => lookupK m k
  | _ => none

/-- Reading one sequence index of a document (observation helper). -/
def atIdx (d : J) (i : Nat) : Option J :=
  match d with
  | .arr xs => xs[i]?
  | _ => none

/-- Whether a document node is a sequence (observation helper). -/
def isArrJ : J → Bool
  | .arr _ => true
  | _ => false

/-- The empty container `do_update` creates at a missing intermediate
position (updatable.py lines 126-138): an empty list when the next key
is an int, an empty dict otherwise. -/
def emptyFor (nk : J) : J :=
  if nextKeyIsInt nk then .arr [] else .obj []

/-- The update instruction `["a", -5, "v"]`: its traversal creates an
empty list under `"a"`, then the out-of-range negative index raises. -/
def badInstr : J := .arr [.str "a", .num (-5), .str "v"]

/-- The update instruction `["a", "k", 7]`. -/
def goodInstr : J := .arr [.str "a", .str "k", .num 7]

lemma pyRemove_not_mem {α : Type} [DecidableEq α] (l : List α) (y : α)
    (h : y ∉ l) : pyRemove l y = .error .valueErr := by
  induction l with
  | nil => rfl
  | cons x t ih =>
    have hx : ¬ x = y := fun e => h (e ▸ List.mem_cons_self x t)
    have ht : y ∉ t := fun e => h (List.mem_cons_of_mem _ e)
    simp only [pyRemove, if_neg hx, ih ht]
    rfl

lemma pyRemove_first {α : Type} [DecidableEq α] (l1 l2 : List α) (y : α)
    (h : y ∉ l1) : pyRemove (l1 ++ y :: l2) y = .ok (l1 ++ l2) := by
  induction l1 with
  | nil => simp [pyRemove]
  | cons x t ih =>
    have hx : ¬ x = y := fun e => h (e ▸ List.mem_cons_self x t)
    have ht : y ∉ t := fun e => h (List.mem_cons_of_mem _ e)
    simp only [List.cons_append, pyRemove, if_neg hx, List.append_eq, ih ht]
    rfl

lemma runCallbacks_eq_map (cbs : List Callback) (d : J) :
    runCallbacks cbs d = cbs.map (fun c => (c.id, d)) := by
  induction cbs with
  | nil => rfl
  | cons c t ih => simp [runCallbacks, ih]

/-- **C2.** Replaying an ordered sequence of update instructions through
the receive loop is deterministic: the loop's step relation `ReplayRel`
is functional (two runs of the same frames from the same document end
equal), and the replay function realizes it. -/
theorem c2_replay_deterministic :
    (∀ (d : J) (ms : List J) (r1 r2 : J),
      ReplayRel d ms r1 → ReplayRel d ms r2 → r1 = r2) ∧
    (∀ (d : J) (ms : List J), ReplayRel d ms (replay d ms)) := by
  constructor
  · intro d ms r1 r2 h1 h2
    induction h1 generalizing r2 with
    | nil =>
      cases h2
      rfl
    | cons hstep _ ih =>
      cases h2 with
      | cons hstep2 htail2 =>
        rw [← hstep2, hstep] at htail2
        exact ih _ htail2
  · intro d ms
    induction ms generalizing d with
    | nil => exact .nil d
    | cons m t ih => exact .cons rfl (ih (processStep d m))

/-- Witness for C2 at a concrete run: replaying `[goodInstr]` from the
empty document relates to its replay result, and two such runs agree. -/
theorem c2_witness :
    ReplayRel (.obj []) [goodInstr] (replay (.obj []) [goodInstr]) ∧
    replay (.obj []) [goodInstr] = replay (.obj []) [goodInstr] := by
  have h := c2_replay_deterministic.2 (.obj []) [goodInstr]
  exact ⟨h, c2_replay_deterministic.1 _ _ _ _ h h⟩

/-- **C5, counterexample.** A malformed instruction is caught, but it is
not as if it had been absent: `["a", -5, "v"]` creates `{"a": []}`
before raising, which makes the follow-up `["a", "k", 7]` fail instead
of creating `{"a": {"k": 7}}`. -/
theorem c5_counterexample :
    replay (.obj []) [badInstr, goodInstr] ≠ replay (.obj []) [goodInstr] := by
  intro h
  have hL : (atKey (replay (.obj []) [badInstr, goodInstr]) (.s "a")).map isArrJ
      = some true := rfl
  rw [h] at hL
  have hR : (atKey (replay (.obj []) [goodInstr]) (.s "a")).map isArrJ
      = some false := rfl
  rw [hR] at hL
  exact Bool.noConfusion (Option.some.inj hL)

/-- **C5, amended.** A malformed instruction's exception is caught and
the loop continues with every subsequent instruction (first conjunct);
the stream behaves exactly as if the malformed instruction were absent
when the caught failure left the document unchanged (second conjunct) —
but not in general, because a failing instruction may first create
intermediate containers (see the counterexample). -/
theorem c5_amended :
    (∀ (d m : J) (ms : List J),
      replay d (m :: ms) = replay (processStep d m) ms) ∧
    (∀ (d m : J) (ms : List J), processStep d m = d →
      replay d (m :: ms) = replay d ms) := by
  refine ⟨fun d m ms => rfl, fun d m ms h => ?_⟩
  show List.foldl processStep (processStep d m) ms = List.foldl processStep d ms
  rw [h]

/-- Witness for C5 (amended) at a concrete input: the empty update list
raises `IndexError` without mutating, so the rest of the stream is as
if it were absent. -/
theorem c5_amended_witness :
    replay (.obj []) [J.arr [], goodInstr] = replay (.obj []) [goodInstr] :=
  c5_amended.2 (.obj []) (.arr []) [goodInstr] rfl

/-- **C6, counterexample.** For a frame whose JSON decoding fails,
`_process_message` returns before the observer loop: the one registered
observer is not invoked, contradicting "invoked regardless of the
frame's decoding outcome". -/
theorem c6_counterexample :
    (process_message none true (.obj []) [⟨0, false⟩]).2 = [] ∧
    ([⟨0, false⟩] : List Callback) ≠ [] :=
  ⟨rfl, by decide⟩

/-- **C6, amended.** For frames that decode successfully, every
registered observer is invoked with the decoded value, in registration
order, independently of which observers raise (their exceptions are
caught individually); for frames whose decoding fails, no observer is
invoked at all. -/
theorem c6_amended :
    (∀ (d : J) (should : Bool) (doc : J) (cbs : List Callback),
      (process_message (some d) should doc cbs).2
        = cbs.map (fun c => (c.id, d))) ∧
    (∀ (should : Bool) (doc : J) (cbs : List Callback),
      (process_message none should doc cbs).2 = []) := by
  exact ⟨fun d _ _ cbs => runCallbacks_eq_map cbs d, fun _ _ _ => rfl⟩

/-- **C10.** `register_callback` appends without any duplicate check
(a re-registered observer is invoked once per registration, in order);
`unregister_callback` removes exactly the first occurrence; removing an
observer that is not registered raises `ValueError`. -/
theorem c10_register_unregister :
    (∀ (cbs : List Callback) (cb : Callback) (d : J),
      register_callback cbs cb = cbs ++ [cb] ∧
      runCallbacks (register_callback cbs cb) d
        = runCallbacks cbs d ++ [(cb.id, d)]) ∧
    (∀ (l1 l2 : List Callback) (cb : Callback), cb ∉ l1 →
      unregister_callback (l1 ++ cb :: l2) cb = .ok (l1 ++ l2)) ∧
    (∀ (l : List Callback) (cb : Callback), cb ∉ l →
      unregister_callback l cb = .error .valueErr) := by
  refine ⟨fun cbs cb d => ⟨rfl, ?_⟩, fun l1 l2 cb h => pyRemove_first l1 l2 cb h,
    fun l cb h => pyRemove_not_mem l cb h⟩
  simp [runCallbacks_eq_map, register_callback]

/-- Witness for C10 at concrete observer lists. -/
theorem c10_witness :
    unregister_callback [⟨1, false⟩, ⟨2, false⟩, ⟨1, false⟩] ⟨2, false⟩
      = .ok [⟨1, false⟩, ⟨1, false⟩] ∧
    unregister_callback [⟨1, false⟩] ⟨3, false⟩ = .error .valueErr :=
  ⟨c10_register_unregister.2.1 [⟨1, false⟩] [⟨1, false⟩] ⟨2, false⟩ (by decide),
   c10_register_unregister.2.2 [⟨1, false⟩] ⟨3, false⟩ (by decide)⟩

lemma length_ne_zero_of_ne_empty (g : String) (h : g ≠ "") : g.length ≠ 0 := by
  cases g with
  | mk data =>
    cases data with
    | nil => exact absurd rfl h
    | cons c t => simp [String.length]

/-- **C3.** `munged_group_name`: `None` passes through; with a
connected snapshot whose listing is `gs`, a nonempty `g` with both `g`
and `/g` listed is ambiguous; only `/g` listed resolves to `/g`; a
resolved name that is not listed does not exist; a listed `g` (with no
`/g` shadow) resolves to itself; and the empty-string default group is
looked up as-is, never conflated with `/`-prefixed names. -/
theorem c3_munged_group_name :
    (∀ snap, munged_group_name none snap = .ok none) ∧
    (∀ (m : List (JKey × J)) (gs : List JKey) (g : String),
      groupsOfSnapshot m = .ok gs → g ≠ "" →
      JKey.s g ∈ gs → JKey.s ("/" ++ g) ∈ gs →
      munged_group_name (some g) (some (.obj m)) = .error .ambiguous) ∧
    (∀ (m : List (JKey × J)) (gs : List JKey) (g : String),
      groupsOfSnapshot m = .ok gs → g ≠ "" →
      JKey.s g ∉ gs → JKey.s ("/" ++ g) ∈ gs →
      munged_group_name (some g) (some (.obj m)) = .ok (some ("/" ++ g))) ∧
    (∀ (m : List (JKey × J)) (gs : List JKey) (g : String),
      groupsOfSnapshot m = .ok gs → g ≠ "" →
      JKey.s g ∉ gs → JKey.s ("/" ++ g) ∉ gs →
      munged_group_name (some g) (some (.obj m)) = .error .doesNotExist) ∧
    (∀ (m : List (JKey × J)) (gs : List JKey) (g : String),
      groupsOfSnapshot m = .ok gs → g ≠ "" →
      JKey.s g ∈ gs → JKey.s ("/" ++ g) ∉ gs →
      munged_group_name (some g) (some (.obj m)) = .ok (some g)) ∧
    (∀ (m : List (JKey × J)) (gs : List JKey),
      groupsOfSnapshot m = .ok gs → JKey.s "" ∈ gs →
      munged_group_name (some "") (some (.obj m)) = .ok (some "")) ∧
    (∀ (m : List (JKey × J)) (gs : List JKey),
      groupsOfSnapshot m = .ok gs → JKey.s "" ∉ gs →
      munged_group_name (some "") (some (.obj m)) = .error .doesNotExist) := by
  refine ⟨fun snap => rfl, ?_, ?_, ?_, ?_, ?_, ?_⟩
  · intro m gs g hgs hne hg hg0
    have hlen := length_ne_zero_of_ne_empty g hne
    simp [munged_group_name, hgs, hlen, hg, hg0]
  · intro m gs g hgs hne hg hg0
    have hlen := length_ne_zero_of_ne_empty g hne
    simp [munged_group_name, hgs, hlen, hg, hg0]
  · intro m gs g hgs hne hg hg0
    have hlen := length_ne_zero_of_ne_empty g hne
    simp [munged_group_name, hgs, hlen, hg, hg0]
  · intro m gs g hgs hne hg hg0
    have hlen := length_ne_zero_of_ne_empty g hne
    simp [munged_group_name, hgs, hlen, hg, hg0]
  · intro m gs hgs hg
    simp [munged_group_name, hgs, hg]
  · intro m gs hgs hg
    simp [munged_group_name, hgs, hg]

/-- Witness for C3 at concrete snapshots: both `gpu` and `/gpu`
existing is ambiguous; only `/gpu` existing resolves `gpu` to `/gpu`;
the default group resolves to itself beside `/gpu`. -/
theorem c3_witness :
    munged_group_name (some "gpu")
      (some (.obj [(.s "groups",
        .obj [(.s "gpu", .obj []), (.s "/gpu", .obj [])])]))
      = .error .ambiguous ∧
    munged_group_name (some "gpu")
      (some (.obj [(.s "groups", .obj [(.s "/gpu", .obj [])])]))
      = .ok (some "/gpu") ∧
    munged_group_name (some "")
      (some (.obj [(.s "groups",
        .obj [(.s "", .obj []), (.s "/gpu", .obj [])])]))
      = .ok (some "") :=
  ⟨c3_munged_group_name.2.1 _ [.s "gpu", .s "/gpu"] "gpu" rfl (by decide)
      (by decide) (by decide),
   c3_munged_group_name.2.2.1 _ [.s "/gpu"] "gpu" rfl (by decide)
      (by decide) (by decide),
   c3_munged_group_name.2.2.2.2.2.1 _ [.s "", .s "/gpu"] rfl (by decide)⟩

/-- **C4, counterexample.** With the transport opened successfully, an
exception during the single handshake read propagates out of
`connect()` (it is not caught), and the Document keeps its old,
non-empty contents rather than being reset — contradicting "the
Document is reset … and connect() returns normally" for handshake-read
failures. -/
theorem c4_counterexample :
    (connect ⟨false, false, false, .obj [(.s "d", .num 1)], [1, 2, 3], .initial⟩
        .ok .exc).2 ≠ .returned ∧
    (connect ⟨false, false, false, .obj [(.s "d", .num 1)], [1, 2, 3], .initial⟩
        .ok .exc).1.data = .obj [(.s "d", .num 1)] :=
  ⟨by decide, rfl⟩

/-- **C4, amended.** For a client with no transport yet and a usable
URI: every failure to open the transport resets the Document to empty
and the version to `(0,0,0)`, records a state label, and returns
normally; a cancellation during the open performs the same reset but is
re-raised.  An exception (or cancellation) during the handshake read,
however, is not caught: it propagates to the caller and neither the
Document nor the version is reset. -/
theorem c4_amended :
    ∀ (s : FCState), s.uriNone = false → s.hasWs = false →
      (∀ readR,
        connect s .osErr readR
          = ({ s with data := .obj [], version := [0, 0, 0], connState := .unreachable }, .returned) ∧
        connect s .invalidUri readR
          = ({ s with data := .obj [], version := [0, 0, 0], connState := .invalidAddress }, .returned) ∧
        connect s .otherExc readR
          = ({ s with data := .obj [], version := [0, 0, 0], connState := .excTypeOf }, .returned) ∧
        connect s .cancelled readR
          = ({ s with data := .obj [], version := [0, 0, 0], connState := .disconnected }, .raisedCancel)) ∧
      connect s .ok .exc
        = ({ s with hasWs := true, wsOpen := true, connState := .connected }, .raisedExc) ∧
      connect s .ok .cancelled
        = ({ s with hasWs := true, wsOpen := true, connState := .connected }, .raisedCancel) := by
  intro s h2 h3
  refine ⟨fun readR => ⟨?_, ?_, ?_, ?_⟩, ?_, ?_⟩ <;>
    simp [connect, handshake, h2, h3]

/-- Witness for C4 (amended) at a concrete client state. -/
theorem c4_witness :
    connect ⟨false, false, false, .obj [(.s "d", .num 1)], [1, 2, 3], .initial⟩
        .osErr .exc
      = (⟨false, false, false, .obj [], [0, 0, 0], .unreachable⟩, .returned) ∧
    connect ⟨false, false, false, .obj [(.s "d", .num 1)], [1, 2, 3], .initial⟩
        .cancelled .exc
      = (⟨false, false, false, .obj [], [0, 0, 0], .disconnected⟩, .raisedCancel) := by
  have h := c4_amended ⟨false, false, false, .obj [(.s "d", .num 1)], [1, 2, 3], .initial⟩
    rfl rfl
  exact ⟨(h.1 .exc).1, (h.1 .exc).2.2.2⟩

/-- **C1.** The final dispatch of `do_update` (which for a two-element
update is exactly `finalStep` on the navigated container): on a
sequence, key `-1` appends the value (growing by exactly 1), key `-2`
extends with the value's elements (growing by exactly their number), an
index at or beyond the length appends, an in-range index removes the
element when the value is null and replaces it otherwise; on a map, a
null value deletes the (present) key and a non-null value sets or
overwrites it. -/
lemma finalStep_arr_del (xs : List J) (n : Nat) (hn : n < xs.length) :
    finalStep (.arr xs) (.num n) .null = (.arr (xs.eraseIdx n), none) := by
  have h1 : ¬((n : Int) = -1) := by omega
  have h2 : ¬((n : Int) = -2) := by omega
  have h3 : ¬((xs.length : Int) ≤ (n : Int)) := by omega
  simp [finalStep, pyEqInt, intLike, pyIdx, h1, h2, h3, hn]

lemma finalStep_arr_set (xs : List J) (n : Nat) (v : J) (hn : n < xs.length)
    (hv : v ≠ .null) : finalStep (.arr xs) (.num n) v = (.arr (xs.set n v), none) := by
  have h1 : ¬((n : Int) = -1) := by omega
  have h2 : ¬((n : Int) = -2) := by omega
  have h3 : ¬((xs.length : Int) ≤ (n : Int)) := by omega
  cases v with
  | null => exact absurd rfl hv
  | bool b => simp [finalStep, pyEqInt, intLike, pyIdx, h1, h2, h3, hn]
  | num m => simp [finalStep, pyEqInt, intLike, pyIdx, h1, h2, h3, hn]
  | str s => simp [finalStep, pyEqInt, intLike, pyIdx, h1, h2, h3, hn]
  | arr ys => simp [finalStep, pyEqInt, intLike, pyIdx, h1, h2, h3, hn]
  | obj mm => simp [finalStep, pyEqInt, intLike, pyIdx, h1, h2, h3, hn]

lemma finalStep_obj_del (m : List (JKey × J)) (s : String)
    (hc : containsK m (.s s) = true) :
    finalStep (.obj m) (.str s) .null = (.obj (eraseK m (.s s)), none) := by
  simp [finalStep, pathKey, hc]

lemma finalStep_obj_set (m : List (JKey × J)) (s : String) (v : J)
    (hv : v ≠ .null) :
    finalStep (.obj m) (.str s) v = (.obj (setK m (.s s) v), none) := by
  cases v with
  | null => exact absurd rfl hv
  | bool b => rfl
  | num m2 => rfl
  | str s2 => rfl
  | arr ys => rfl
  | obj mm => rfl

theorem c1_final_dispatch :
    (∀ (o k v : J), do_update o (.arr [k, v]) = finalStep o k v) ∧
    (∀ (xs : List J) (v : J),
      finalStep (.arr xs) (.num (-1)) v = (.arr (xs ++ [v]), none) ∧
      (xs ++ [v]).length = xs.length + 1) ∧
    (∀ (xs vs : List J),
      finalStep (.arr xs) (.num (-2)) (.arr vs) = (.arr (xs ++ vs), none) ∧
      (xs ++ vs).length = xs.length + vs.length) ∧
    (∀ (xs : List J) (n : Int) (v : J), (xs.length : Int) ≤ n →
      finalStep (.arr xs) (.num n) v = (.arr (xs ++ [v]), none)) ∧
    (∀ (xs : List J) (n : Nat), n < xs.length →
      finalStep (.arr xs) (.num n) .null = (.arr (xs.eraseIdx n), none)) ∧
    (∀ (xs : List J) (n : Nat) (v : J), n < xs.length → v ≠ .null →
      finalStep (.arr xs) (.num n) v = (.arr (xs.set n v), none)) ∧
    (∀ (m : List (JKey × J)) (s : String), containsK m (.s s) = true →
      finalStep (.obj m) (.str s) .null = (.obj (eraseK m (.s s)), none)) ∧
    (∀ (m : List (JKey × J)) (s : String) (v : J), v ≠ .null →
      finalStep (.obj m) (.str s) v = (.obj (setK m (.s s) v), none)) := by
  refine ⟨fun o k v => rfl, fun xs v => ⟨rfl, by simp⟩,
    fun xs vs => ⟨rfl, by simp⟩, ?_, finalStep_arr_del, finalStep_arr_set,
    finalStep_obj_del, finalStep_obj_set⟩
  intro xs n v hle
  have h1 : ¬(n = -1) := by omega
  have h2 : ¬(n = -2) := by omega
  simp [finalStep, pyEqInt, intLike, h1, h2, hle]

/-- Witness for C1 at concrete containers: append via `-1`, extend via
`-2`, append past the end, in-range delete, in-range replace, map
delete, map overwrite. -/
theorem c1_witness :
    finalStep (.arr [.num 1, .num 2, .num 3]) (.num (-1)) (.num 4)
      = (.arr [.num 1, .num 2, .num 3, .num 4], none) ∧
    finalStep (.arr [.num 1, .num 2, .num 3]) (.num (-2)) (.arr [.num 8, .num 9])
      = (.arr [.num 1, .num 2, .num 3, .num 8, .num 9], none) ∧
    finalStep (.arr [.num 1, .num 2, .num 3]) (.num 7) (.num 5)
      = (.arr [.num 1, .num 2, .num 3, .num 5], none) ∧
    finalStep (.arr [.num 1, .num 2, .num 3]) (.num 1) .null
      = (.arr [.num 1, .num 3], none) ∧
    finalStep (.arr [.num 1, .num 2, .num 3]) (.num 1) (.str "x")
      = (.arr [.num 1, .str "x", .num 3], none) ∧
    finalStep (.obj [(.s "a", .num 1), (.s "b", .num 2)]) (.str "a") .null
      = (.obj [(.s "b", .num 2)], none) ∧
    finalStep (.obj [(.s "a", .num 1)]) (.str "a") (.num 9)
      = (.obj [(.s "a", .num 9)], none) :=
  ⟨(c1_final_dispatch.2.1 [.num 1, .num 2, .num 3] (.num 4)).1,
   (c1_final_dispatch.2.2.1 [.num 1, .num 2, .num 3] [.num 8, .num 9]).1,
   c1_final_dispatch.2.2.2.1 [.num 1, .num 2, .num 3] 7 (.num 5) (by decide),
   c1_final_dispatch.2.2.2.2.1 [.num 1, .num 2, .num 3] 1 (by decide),
   c1_final_dispatch.2.2.2.2.2.1 [.num 1, .num 2, .num 3] 1 (.str "x")
     (by decide) (fun h => J.noConfusion h),
   c1_final_dispatch.2.2.2.2.2.2.1 [(.s "a", .num 1), (.s "b", .num 2)] "a" rfl,
   c1_final_dispatch.2.2.2.2.2.2.2 [(.s "a", .num 1)] "a" (.num 9)
     (fun h => J.noConfusion h)⟩

/-- **C9.** Traversal of every path segment except the last two: at a
missing dict key, and at a sequence position addressed as `-1` or as
the current length, an empty container is created — an empty sequence
when the next segment is an int, an empty map otherwise (`emptyFor`) —
and the rest of the instruction (ending in the terminal value) is then
applied inside that newly created container. -/
theorem c9_traversal_creates :
    (∀ (o : J) (u : List J), do_update o (.arr u) = goUpdate o u) ∧
    (∀ (m : List (JKey × J)) (k : J) (kk : JKey) (nk z : J) (rest3 : List J),
      pathKey k = some kk → lookupK m kk = none →
      goUpdate (.obj m) (k :: nk :: z :: rest3)
        = (.obj (m ++ [(kk, (goUpdate (emptyFor nk) (nk :: z :: rest3)).1)]),
           (goUpdate (emptyFor nk) (nk :: z :: rest3)).2)) ∧
    (∀ (xs : List J) (k nk z : J) (rest3 : List J),
      (pyEqInt k (-1) || pyEqInt k (xs.length : Int)) = true →
      goUpdate (.arr xs) (k :: nk :: z :: rest3)
        = (.arr (xs ++ [(goUpdate (emptyFor nk) (nk :: z :: rest3)).1]),
           (goUpdate (emptyFor nk) (nk :: z :: rest3)).2)) := by
  refine ⟨fun o u => rfl, ?_, ?_⟩
  · intro m k kk nk z rest3 hk hm
    simp [goUpdate, hk, hm, emptyFor]
  · intro xs k nk z rest3 h
    simp [goUpdate, h, emptyFor]

/-- Witness for C9 at concrete inputs: `["a", 0, 7]` on `{}` creates an
empty list under `"a"` (the next segment `0` is an int) and applies the
terminal value inside it; `[3, "k", 5]` on a length-3 list appends an
empty dict and applies the terminal value inside it. -/
theorem c9_witness :
    goUpdate (.obj []) [.str "a", .num 0, .num 7]
      = (.obj [(.s "a", (goUpdate (emptyFor (.num 0)) [.num 0, .num 7]).1)],
         (goUpdate (emptyFor (.num 0)) [.num 0, .num 7]).2) ∧
    goUpdate (.obj []) [.str "a", .num 0, .num 7]
      = (.obj [(.s "a", .arr [.num 7])], none) ∧
    goUpdate (.arr [.num 0, .num 0, .num 0]) [.num 3, .str "k", .num 5]
      = (.arr [.num 0, .num 0, .num 0,
          (goUpdate (emptyFor (.str "k")) [.str "k", .num 5]).1],
         (goUpdate (emptyFor (.str "k")) [.str "k", .num 5]).2) ∧
    goUpdate (.arr [.num 0, .num 0, .num 0]) [.num 3, .str "k", .num 5]
      = (.arr [.num 0, .num 0, .num 0, .obj [(.s "k", .num 5)]], none) :=
  ⟨c9_traversal_creates.2.1 [] (.str "a") (.s "a") (.num 0) (.num 7) [] rfl rfl,
   rfl,
   c9_traversal_creates.2.2 [.num 0, .num 0, .num 0] (.num 3) (.str "k") (.num 5) []
     (by decide),
   rfl⟩

lemma lookupK_setK_ne (m : List (JKey × J)) (kk k' : JKey) (v : J)
    (h : k' ≠ kk) : lookupK (setK m kk v) k' = lookupK m k' := by
  have hkk : ¬ kk = k' := fun e => h e.symm
  induction m with
  | nil => simp [setK, lookupK, hkk]
  | cons e t ih =>
    by_cases he : e.1 = kk
    · simp only [setK]
      rw [if_pos he]
      simp [lookupK, he, hkk]
    · simp only [setK]
      rw [if_neg he]
      simp [lookupK, ih]

lemma lookupK_append_one_ne (m : List (JKey × J)) (kk k' : JKey) (c : J)
    (h : k' ≠ kk) : lookupK (m ++ [(kk, c)]) k' = lookupK m k' := by
  have hkk : ¬ kk = k' := fun e => h e.symm
  induction m with
  | nil => simp [lookupK, hkk]
  | cons e t ih => by_cases he : e.1 = k' <;> simp [lookupK, he, ih]

lemma lookupK_eraseK_ne (m : List (JKey × J)) (kk k' : JKey)
    (h : k' ≠ kk) : lookupK (eraseK m kk) k' = lookupK m k' := by
  induction m with
  | nil => rfl
  | cons e t ih =>
    by_cases he : e.1 = kk
    · simp only [eraseK]
      rw [if_pos he]
      have : ¬ e.1 = k' := fun e2 => h (e2 ▸ he)
      simp [lookupK, this]
    · simp only [eraseK]
      rw [if_neg he]
      by_cases he2 : e.1 = k' <;> simp [lookupK, he2, ih]

lemma lookupK_none_of_not_mem (m : List (JKey × J)) (kk : JKey)
    (h : kk ∉ m.map Prod.fst) : lookupK m kk = none := by
  induction m with
  | nil => rfl
  | cons e t ih =>
    have he : ¬ e.1 = kk := fun e2 => h (by simp [e2])
    have ht : kk ∉ t.map Prod.fst := fun e2 => h (by simp [e2])
    simp [lookupK, he, ih ht]

lemma lookupK_eraseK_self (m : List (JKey × J)) (kk : JKey)
    (hnd : (m.map Prod.fst).Nodup) : lookupK (eraseK m kk) kk = none := by
  induction m with
  | nil => rfl
  | cons e t ih =>
    simp only [List.map_cons, List.nodup_cons] at hnd
    by_cases he : e.1 = kk
    · simp only [eraseK]
      rw [if_pos he]
      exact lookupK_none_of_not_mem t kk (he ▸ hnd.1)
    · simp only [eraseK]
      rw [if_neg he]
      simp [lookupK, he, ih hnd.2]

/-- **C7.** Locality of `do_update` mutations: a traversal step into a
dict leaves every other key's binding unchanged (at every level, since
the statement quantifies over arbitrary containers); the final step on
a map leaves every other key unchanged both for delete and for
set/overwrite, and a delete removes exactly the addressed (present)
key; the final step on a sequence deletes exactly the addressed
in-range element, shifting later indices down by one, and an in-range
replacement leaves every other index unchanged. -/
theorem c7_locality :
    (∀ (m : List (JKey × J)) (k : J) (kk : JKey) (nk z : J) (rest3 : List J)
        (k' : JKey), pathKey k = some kk → k' ≠ kk →
      atKey (goUpdate (.obj m) (k :: nk :: z :: rest3)).1 k' = lookupK m k') ∧
    (∀ (m : List (JKey × J)) (s : String) (k' : JKey), k' ≠ .s s →
      atKey (finalStep (.obj m) (.str s) .null).1 k' = lookupK m k') ∧
    (∀ (m : List (JKey × J)) (s : String),
      containsK m (.s s) = true → (m.map Prod.fst).Nodup →
      atKey (finalStep (.obj m) (.str s) .null).1 (.s s) = none) ∧
    (∀ (m : List (JKey × J)) (s : String) (v : J) (k' : JKey),
      v ≠ .null → k' ≠ .s s →
      atKey (finalStep (.obj m) (.str s) v).1 k' = lookupK m k') ∧
    (∀ (xs : List J) (n : Nat), n < xs.length →
      (finalStep (.arr xs) (.num n) .null).1
        = .arr (xs.take n ++ xs.drop (n + 1)) ∧
      (∀ i : Nat, atIdx (finalStep (.arr xs) (.num n) .null).1 i
        = if i < n then xs[i]? else xs[i + 1]?)) ∧
    (∀ (xs : List J) (n : Nat) (v : J) (i : Nat), n < xs.length →
      v ≠ .null → i ≠ n →
      atIdx (finalStep (.arr xs) (.num n) v).1 i = xs[i]?) := by
  refine ⟨?_, ?_, ?_, ?_, ?_, ?_⟩
  · intro m k kk nk z rest3 k' hk hne
    cases hlook : lookupK m kk with
    | some child =>
      simp [goUpdate, hk, hlook, atKey, lookupK_setK_ne _ _ _ _ hne]
    | none =>
      simp [goUpdate, hk, hlook, atKey, lookupK_append_one_ne _ _ _ _ hne]
  · intro m s k' hne
    by_cases hc : containsK m (.s s) = true
    · rw [finalStep_obj_del m s hc]
      simp [atKey, lookupK_eraseK_ne _ _ _ hne]
    · have hcf : containsK m (.s s) = false := by simpa using hc
      simp [finalStep, pathKey, hcf, atKey]
  · intro m s hc hnd
    rw [finalStep_obj_del m s hc]
    simp [atKey, lookupK_eraseK_self _ _ hnd]
  · intro m s v k' hv hne
    rw [finalStep_obj_set m s v hv]
    simp [atKey, lookupK_setK_ne _ _ _ _ hne]
  · intro xs n hn
    refine ⟨?_, ?_⟩
    · rw [finalStep_arr_del xs n hn]
      simp [List.eraseIdx_eq_take_drop_succ]
    · intro i
      rw [finalStep_arr_del xs n hn]
      simpa [atIdx] using List.getElem?_eraseIdx xs n i
  · intro xs n v i hn hv hne
    rw [finalStep_arr_set xs n v hn hv]
    simp [atIdx, List.getElem?_set_ne (fun e => hne e.symm)]

/-- Witness for C7 at concrete inputs: deleting key `"a"` keeps sibling
`"b"`; deleting index 1 of a 3-element list keeps the first element in
place and shifts the last down. -/
theorem c7_witness :
    atKey (finalStep (.obj [(.s "a", .num 1), (.s "b", .num 2)])
        (.str "a") .null).1 (.s "b") = some (.num 2) ∧
    atKey (finalStep (.obj [(.s "a", .num 1), (.s "b", .num 2)])
        (.str "a") .null).1 (.s "a") = none ∧
    atIdx (finalStep (.arr [.num 1, .num 2, .num 3]) (.num 1) .null).1 0
      = some (.num 1) ∧
    atIdx (finalStep (.arr [.num 1, .num 2, .num 3]) (.num 1) .null).1 1
      = some (.num 3) := by
  refine ⟨?_, ?_, ?_, ?_⟩
  · exact (c7_locality.2.1 [(.s "a", .num 1), (.s "b", .num 2)] "a" (.s "b")
      (by decide)).trans rfl
  · exact c7_locality.2.2.1 [(.s "a", .num 1), (.s "b", .num 2)] "a" rfl
      (by decide)
  · exact ((c7_locality.2.2.2.2.1 [.num 1, .num 2, .num 3] 1 (by decide)).2 0).trans
      (by rfl)
  · exact ((c7_locality.2.2.2.2.1 [.num 1, .num 2, .num 3] 1 (by decide)).2 1).trans
      (by rfl)

lemma findIdx_slash_none (l : List Char) (h : ∀ c ∈ l, c ≠ '/') :
    l.findIdx? (· = '/') = none :=
  List.findIdx?_eq_none_iff.mpr (fun c hc => by simp [h c hc])

lemma findIdx_slash_append (a r : List Char) (h : ∀ c ∈ a, c ≠ '/') :
    (a ++ '/' :: r).findIdx? (· = '/') = some a.length := by
  rw [List.findIdx?_append, findIdx_slash_none a h]
  simp

/-- **C8.** Peer parsing separates the trailing `/...` group and
normalizes it: a peer with no `/` selects no group; a peer
`addr ++ "/" ++ rest` (first slash after a slash-free address part)
yields exactly the group `rest` — so a lone trailing `/` yields the
default group `""`, `//name` yields the literal group `/name`, and any
other single leading `/` is stripped exactly once.  Concretely, `"."`
is the local endpoint with no group, `"/rg2"` the local endpoint with
group `"rg2"`, and `"host:1234/"` port 1234 with group `""`. -/
theorem c8_peer_parsing :
    (∀ p : String, (∀ c ∈ p.toList, c ≠ '/') → p ≠ "" →
      (uri_and_group_for_peer (some p)).2 = none) ∧
    (∀ a r : List Char, (∀ c ∈ a, c ≠ '/') →
      (uri_and_group_for_peer (some (a ++ '/' :: r).asString)).2
        = some r.asString) ∧
    uri_and_group_for_peer (some ".")
      = (some "ws://localhost:7396/api/websocket", none) ∧
    uri_and_group_for_peer (some "/rg2")
      = (some "ws://localhost:7396/api/websocket/rg2", some "rg2") ∧
    uri_and_group_for_peer (some "host:1234/")
      = (some "ws://host:1234/api/websocket", some "") := by
  refine ⟨?_, ?_, by decide, by decide, by decide⟩
  · intro p h hne
    have hfind : pyFindSlash p = none := findIdx_slash_none p.toList h
    simp [uri_and_group_for_peer, split_address_and_group, hfind, hne]
  · intro a r h
    have hne : ¬((a ++ '/' :: r).asString = "") := by
      intro he
      have : a ++ '/' :: r = ([] : List Char) := congrArg String.data he
      simp at this
    have hfind : pyFindSlash (a ++ '/' :: r).asString = some a.length :=
      findIdx_slash_append a r h
    have hsplit : (split_address_and_group (some (a ++ '/' :: r).asString)).2
        = some (('/' :: r).asString) := by
      cases a with
      | nil =>
        simp only [List.nil_append, List.length_nil] at hfind
        simp [split_address_and_group, hfind]
      | cons c a2 =>
        have hlen : ¬((c :: a2).length = 0) := by simp
        have hdrop : ((c :: a2 ++ '/' :: r).asString).toList.drop (c :: a2).length
            = '/' :: r := by
          have he : ((c :: a2 ++ '/' :: r).asString).toList = c :: a2 ++ '/' :: r := rfl
          rw [he, List.drop_left]
        simp only [List.cons_append] at hfind hdrop hlen
        simp [split_address_and_group, hfind, hlen, hdrop]
        simpa [String.toList] using hdrop
    have htl2 : (('/' :: r).asString).data = '/' :: r := rfl
    simp [uri_and_group_for_peer, hne, hsplit, headIsSlash, htl2]

/-- Witness for C8 at concrete peers: `"h/g"` yields group `"g"`, and
`"host"` (no slash) yields no group. -/
theorem c8_witness :
    (uri_and_group_for_peer (some (['h'] ++ '/' :: ['g']).asString)).2
      = some (['g'].asString) ∧
    (uri_and_group_for_peer (some "host")).2 = none :=
  ⟨c8_peer_parsing.2.1 ['h'] ['g'] (by decide),
   c8_peer_parsing.1 "host" (by decide) (by decide)⟩

end Lufah
